import Mathlib

/-!
# Shallow embedding of the survey user-id mapping scripts

This file embeds the three Python scripts of the repository:

* `scripts/add_user_id.py` — `load_user_mapping` (the mapping validator) and
  `add_user_id_and_sort` (the table joiner);
* `scripts/query_responses.py` — `get_user_responses` (the response lookup);
* `scripts/generate_template.py` — `generate_template` (the template generator).

Modelling conventions:

* A parsed YAML attribute bag is `YamlInfo`: either not a dict, or a dict whose
  `user_id` lookup (`info.get` in the source, which conflates an absent key with an
  explicit null) yields `none` or a `YamlVal` (an integer or a value of some other
  type, remembered by its type name, which the source interpolates into the message).
* Python's `str.strip` is `pyStrip`, written over the character list so that it
  evaluates in the kernel.
* A Python `dict` is an association list in insertion order; `dictInsert` has the
  update-in-place-or-append semantics of `d[k] = v`, and `dictGet` is keyed lookup.
* A pandas `DataFrame` of the survey is a `List SurveyRow` (the fixed column set of
  the spec: identifier, name, and the three free-text answers E1–E3); the joined
  output is a `List JoinedRow` with the numeric identifier promoted to the first
  field.  `df.sort_values(col)` is embedded as `sortBy` (insertion sort) keyed by
  that column: the source's call leaves the order of tied keys to the library's
  default quicksort, so any tie order fixed here is a modelling choice.
* Error paths (`raise ValueError` and the printed diagnostics that precede them)
  become explicit result constructors carrying the accumulated diagnostics.
-/

/-- Python `str.strip` whitespace (the ASCII whitespace characters). -/
def isPySpace (c : Char) : Bool :=
  c = ' ' || c = '\t' || c = '\n' || c = '\r' || c = '\x0b' || c = '\x0c'

/-- `str.strip()`: drop leading and trailing whitespace. -/
def pyStrip (s : String) : String :=
  ⟨((s.data.dropWhile isPySpace).reverse.dropWhile isPySpace).reverse⟩

/-- Keep the first occurrence of each element, dropping later repeats
(the semantics of pandas `unique` / `drop_duplicates`); `seen` accumulates
the elements already emitted. -/
def dedupFirstAux {α : Type} [DecidableEq α] (seen : List α) : List α → List α
  | [] => []
  | a :: l => if a ∈ seen then dedupFirstAux seen l else a :: dedupFirstAux (a :: seen) l

/-- First-occurrence de-duplication of a list. -/
def dedupFirst {α : Type} [DecidableEq α] (l : List α) : List α :=
  dedupFirstAux [] l

/-- Python `d[k] = v` on an insertion-ordered dict: update the value in place if
the key is present, otherwise append the new binding. -/
def dictInsert {β : Type} : List (String × β) → String → β → List (String × β)
  | [], k, v => [(k, v)]
  | (k0, v0) :: m, k, v =>
      if k = k0 then (k0, v) :: m else (k0, v0) :: dictInsert m k v

/-- Python `d.get(k)` / `d[k]` lookup on an insertion-ordered dict. -/
def dictGet {β : Type} : List (String × β) → String → Option β
  | [], _ => none
  | (k0, v0) :: m, k => if k = k0 then some v0 else dictGet m k

/-- Insert an element into a `le`-sorted list, before the first element it is
`le`-below (so the overall sort keeps input order on ties). -/
def insertSorted {α : Type} (le : α → α → Bool) (a : α) : List α → List α
  | [] => [a]
  | b :: l => if le a b then a :: b :: l else b :: insertSorted le a l

/-- Sort a list by the boolean comparison `le` (insertion sort).  This embeds the
`sort_values` / `sorted` calls of the source; on tied keys the source's default
quicksort leaves the order unspecified, this embedding keeps input order. -/
def sortBy {α : Type} (le : α → α → Bool) (l : List α) : List α :=
  l.foldr (insertSorted le) []

/-- Lexicographic comparison of character lists (Python `str` comparison is
lexicographic on code points). -/
def charListLe : List Char → List Char → Bool
  | [], _ => true
  | _ :: _, [] => false
  | a :: as, b :: bs => if a < b then true else if a = b then charListLe as bs else false

/-- Python string `<=` : lexicographic on the characters. -/
def strLe (s t : String) : Bool :=
  charListLe s.data t.data

/-- A scalar found under `user_id`: an integer, or a value of another type
(carrying Python's name for that type, used in the diagnostic). -/
inductive YamlVal where
  | intVal (n : Int)
  | otherVal (tyName : String)
deriving DecidableEq

/-- The attribute bag associated to a key in the raw mapping: either not a
dict at all, or a dict whose `get` of the `user_id` field yields `none`
(absent key or explicit null) or some scalar. -/
inductive YamlInfo where
  | notDict (tyName : String)
  | dict (uidField : Option YamlVal)
deriving DecidableEq

/-- The per-entry rejection reasons of `load_user_mapping`, one per `errors.append`
site of the source. -/
inductive Reason where
  | badFormat
  | missingUserId
  | notInt (tyName : String)
  | outOfRange (n : Int)
deriving DecidableEq

/-- The defect, if any, that the per-entry pass of `load_user_mapping` records for
one raw entry: the trimmed key together with the reason, mirroring the four
`errors.append` branches (non-dict bag, missing/null `user_id`, non-integer
`user_id`, `user_id` outside `[1, 18]`). -/
def entryError (e : String × YamlInfo) : Option (String × Reason) :=
  match e.2 with
  | .notDict _ => some (pyStrip e.1, .badFormat)
  | .dict none => some (pyStrip e.1, .missingUserId)
  | .dict (some (.otherVal ty)) => some (pyStrip e.1, .notInt ty)
  | .dict (some (.intVal n)) =>
      if n < 1 ∨ 18 < n then some (pyStrip e.1, .outOfRange n) else none

/-- The binding `trimmed key ↦ user_id` that a defect-free raw entry contributes to
`user_mapping` (the `user_mapping[student_id] = user_id` line); `none` exactly when
`entryError` records a defect. -/
def validEntry (e : String × YamlInfo) : Option (String × Int) :=
  match e.2 with
  | .dict (some (.intVal n)) =>
      if n < 1 ∨ 18 < n then none else some (pyStrip e.1, n)
  | _ => none

/-- The `user_mapping` dict built by the per-entry loop: the valid entries inserted
in order with Python dict assignment (a repeated trimmed key overwrites the value,
keeping the original position). -/
def buildMapping (raw : List (String × YamlInfo)) : List (String × Int) :=
  (raw.filterMap validEntry).foldl (fun m p => dictInsert m p.1 p.2) []

/-- `list(user_mapping.values())`. -/
def userIds (m : List (String × Int)) : List Int :=
  m.map Prod.snd

/-- The colliding numeric identifiers: values occurring more than once in
`user_mapping.values()` (`[uid for uid in set(user_ids) if user_ids.count(uid) > 1]`;
the Python `set` fixes no order, this embedding takes first-occurrence order). -/
def dupIds (m : List (String × Int)) : List Int :=
  (dedupFirst (userIds m)).filter (fun uid => 1 < (userIds m).count uid)

/-- The duplicate diagnostic: each colliding identifier with all keys mapped to it
(`[sid for sid, u in user_mapping.items() if u == uid]`). -/
def dupReport (m : List (String × Int)) : List (Int × List String) :=
  (dupIds m).map (fun uid => (uid, (m.filter (fun p => p.2 == uid)).map Prod.fst))

/-- The integers `1..N` in ascending order. -/
def intRange1toN (N : Nat) : List Int :=
  (List.range N).map (fun i => Int.ofNat i + 1)

/-- `sorted(set(range(1, 19)) - set(user_ids))`: the identifiers of `1..18` not used
by the mapping, in ascending order (the coverage-gap warning payload). -/
def missingIds (m : List (String × Int)) : List Int :=
  (intRange1toN 18).filter (fun i => ! (userIds m).contains i)

/-- The outcome of `load_user_mapping`: the empty-input rejection, the batched
per-entry `ValidationError`, the batched `DuplicateIdentifierError`, or success
carrying the mapping together with the (possibly empty) coverage-gap warning. -/
inductive ValidateResult where
  | emptyError
  | validationError (errors : List (String × Reason))
  | duplicateError (dups : List (Int × List String))
  | ok (mapping : List (String × Int)) (missing : List Int)
deriving DecidableEq

/-- `load_user_mapping` of `add_user_id.py`: reject empty input; run the per-entry
pass accumulating every defect and fail with all of them if any; only then check
numeric-identifier uniqueness and fail with every collision; only then compute the
advisory coverage warning and return the mapping. -/
def load_user_mapping (raw : List (String × YamlInfo)) : ValidateResult :=
  if raw = [] then .emptyError
  else if raw.filterMap entryError ≠ [] then .validationError (raw.filterMap entryError)
  else if dupReport (buildMapping raw) ≠ [] then .duplicateError (dupReport (buildMapping raw))
  else .ok (buildMapping raw) (missingIds (buildMapping raw))

/-- One row of the survey CSV: the identifier column (学籍番号), the name column
(氏名), and the three fixed free-text answer columns E1–E3. -/
structure SurveyRow where
  studentId : String
  name : String
  e1 : String
  e2 : String
  e3 : String
deriving DecidableEq

/-- One row of the joined output: the resolved numeric identifier (ユーザー番号)
promoted to the first column, then the original columns in order. -/
structure JoinedRow where
  userId : Int
  studentId : String
  name : String
  e1 : String
  e2 : String
  e3 : String
deriving DecidableEq

/-- `df['学籍番号'] = df['学籍番号'].astype(str).str.strip()`. -/
def trimRow (r : SurveyRow) : SurveyRow :=
  { r with studentId := pyStrip r.studentId }

/-- The rows of the (trimmed) table whose identifier has no mapping entry, as the
`(identifier, name)` pairs the unmapped-rows diagnostic prints. -/
def unmappedRows (table : List SurveyRow) (m : List (String × Int)) : List (String × String) :=
  ((table.map trimRow).filter (fun r => (dictGet m r.studentId).isNone)).map
    (fun r => (r.studentId, r.name))

/-- Attach the resolved numeric identifier to a (trimmed) row, when its identifier
is in the mapping. -/
def joinRow (m : List (String × Int)) (r : SurveyRow) : Option JoinedRow :=
  (dictGet m r.studentId).map (fun uid => ⟨uid, r.studentId, r.name, r.e1, r.e2, r.e3⟩)

/-- The sort key of `df.sort_values('ユーザー番号')`. -/
def rowLe (a b : JoinedRow) : Bool :=
  decide (a.userId ≤ b.userId)

/-- `add_user_id_and_sort` of `add_user_id.py`: trim every row's identifier, look it
up in the validated mapping, fail with every unmapped `(identifier, name)` pair if
any lookup misses (writing nothing), otherwise attach the numeric identifier to
every row, sort ascending by it, and return the reordered rows (the `.ok` payload is
what `to_csv` then writes; on `.error` no write happens). -/
def add_user_id_and_sort (table : List SurveyRow) (m : List (String × Int)) :
    Except (List (String × String)) (List JoinedRow) :=
  if unmappedRows table m ≠ [] then .error (unmappedRows table m)
  else .ok (sortBy rowLe ((table.map trimRow).filterMap (joinRow m)))

/-- The outcome of `get_user_responses`: not found, carrying the sorted list of
identifiers present in the table, or the first matching row's fields. -/
inductive LookupResult where
  | notFound (validIds : List Int)
  | found (userId : Int) (studentId name e1 e2 e3 : String)
deriving DecidableEq

/-- `sorted(df['ユーザー番号'].unique().tolist())`. -/
def sortedUniqueIds (l : List Int) : List Int :=
  sortBy (fun a b => decide (a ≤ b)) (dedupFirst l)

/-- `get_user_responses` of `query_responses.py`: filter the joined table by exact
match on the queried numeric identifier; with zero matches report not-found with
the sorted set of identifiers present; otherwise take the first matching row and
return its fields (the console rendering of empty answers is display-only and not
part of the returned data). -/
def get_user_responses (table : List JoinedRow) (uid : Int) : LookupResult :=
  match table.filter (fun r => r.userId == uid) with
  | [] => .notFound (sortedUniqueIds (table.map (fun r => r.userId)))
  | r :: _ => .found r.userId r.studentId r.name r.e1 r.e2 r.e3

/-- `df[['学籍番号', '氏名']].drop_duplicates()` after trimming the identifier:
the `(identifier, name)` pairs of the table, first occurrence of each distinct
pair, in order. -/
def templatePairs (table : List SurveyRow) : List (String × String) :=
  dedupFirst (table.map (fun r => (pyStrip r.studentId, r.name)))

/-- The enumeration loop of `generate_template`: `user_id = idx + 1` down the
sorted rows. -/
def numberFrom : Int → List (String × String) → List (String × Int × String)
  | _, [] => []
  | k, (sid, name) :: rest => (sid, (k, name)) :: numberFrom (k + 1) rest

/-- `generate_template` of `generate_template.py`: extract the trimmed
`(identifier, name)` pairs, drop duplicate pairs, sort ascending by identifier,
assign `idx + 1` down the sorted list, and build the emitted dict keyed by
identifier (a repeated identifier overwrites its earlier entry).  The result lists
the emitted entries `identifier ↦ (user_id, name)` in emission order. -/
def generate_template (table : List SurveyRow) : List (String × Int × String) :=
  (numberFrom 1 (sortBy (fun p q => strLe p.1 q.1) (templatePairs table))).foldl
    (fun m e => dictInsert m e.1 e.2) []
/-! ## Helper lemmas: first-occurrence de-duplication -/

theorem mem_dedupFirstAux {α : Type} [DecidableEq α] {x : α} :
    ∀ (seen l : List α), x ∈ dedupFirstAux seen l ↔ x ∈ l ∧ x ∉ seen := by
  intro seen l
  induction l generalizing seen with
  | nil => simp [dedupFirstAux]
  | cons a l ih =>
      by_cases ha : a ∈ seen
      · rw [dedupFirstAux, if_pos ha, ih]
        constructor
        · rintro ⟨hx, hns⟩; exact ⟨List.mem_cons_of_mem _ hx, hns⟩
        · rintro ⟨hx, hns⟩
          rcases List.mem_cons.mp hx with rfl | hx
          · exact absurd ha hns
          · exact ⟨hx, hns⟩
      · rw [dedupFirstAux, if_neg ha]
        simp only [List.mem_cons, ih]
        by_cases hxa : x = a
        · subst hxa; tauto
        · tauto

theorem nodup_dedupFirstAux {α : Type} [DecidableEq α] :
    ∀ (seen l : List α), (dedupFirstAux seen l).Nodup := by
  intro seen l
  induction l generalizing seen with
  | nil => simp [dedupFirstAux]
  | cons a l ih =>
      by_cases ha : a ∈ seen
      · rw [dedupFirstAux, if_pos ha]; exact ih seen
      · rw [dedupFirstAux, if_neg ha]
        refine List.Nodup.cons ?_ (ih (a :: seen))
        intro hmem
        exact ((mem_dedupFirstAux (a :: seen) l).mp hmem).2 (List.mem_cons_self a seen)

theorem mem_dedupFirst {α : Type} [DecidableEq α] {x : α} {l : List α} :
    x ∈ dedupFirst l ↔ x ∈ l := by
  simp [dedupFirst, mem_dedupFirstAux]

theorem nodup_dedupFirst {α : Type} [DecidableEq α] (l : List α) :
    (dedupFirst l).Nodup :=
  nodup_dedupFirstAux [] l

/-! ## Helper lemmas: dict insertion and lookup -/

theorem dictGet_eq_some_of_mem {β : Type} {m : List (String × β)} {k : String} {v : β}
    (hk : (m.map Prod.fst).Nodup) (hmem : (k, v) ∈ m) : dictGet m k = some v := by
  induction m with
  | nil => cases hmem
  | cons p m ih =>
      obtain ⟨k0, v0⟩ := p
      rw [List.map_cons, List.nodup_cons] at hk
      rcases List.mem_cons.mp hmem with h | h
      · injection h with h1 h2
        subst h1; subst h2
        show (if k = k then some v else dictGet m k) = some v
        simp
      · have hk0 : k ≠ k0 := by
          rintro rfl
          exact hk.1 (List.mem_map.mpr ⟨(k, v), h, rfl⟩)
        show (if k = k0 then some v0 else dictGet m k) = some v
        rw [if_neg hk0]
        exact ih hk.2 h

theorem mem_of_dictGet_eq_some {β : Type} {m : List (String × β)} {k : String} {v : β}
    (h : dictGet m k = some v) : (k, v) ∈ m := by
  induction m with
  | nil => simp [dictGet] at h
  | cons p m ih =>
      obtain ⟨k0, v0⟩ := p
      by_cases hk : k = k0
      · subst hk
        have h3 : v0 = v := by simpa [dictGet] using h
        subst h3
        exact List.mem_cons_self _ _
      · have h2 : dictGet m k = some v := by simpa [dictGet, hk] using h
        exact List.mem_cons_of_mem _ (ih h2)

theorem dictInsert_of_not_mem_keys {β : Type} {m : List (String × β)} {k : String} (v : β)
    (h : k ∉ m.map Prod.fst) : dictInsert m k v = m ++ [(k, v)] := by
  induction m with
  | nil => rfl
  | cons p m ih =>
      obtain ⟨k0, v0⟩ := p
      have hk : k ≠ k0 := by
        rintro rfl; exact h (by simp)
      show (if k = k0 then (k0, v) :: m else (k0, v0) :: dictInsert m k v) = _
      rw [if_neg hk, List.cons_append]
      have hm : k ∉ m.map Prod.fst := by
        intro hmem
        exact h (by simp [hmem])
      rw [ih hm]

theorem foldl_dictInsert_of_nodup {β : Type} :
    ∀ (l m : List (String × β)), ((m ++ l).map Prod.fst).Nodup →
      l.foldl (fun m p => dictInsert m p.1 p.2) m = m ++ l := by
  intro l
  induction l with
  | nil => intro m _; simp
  | cons p l ih =>
      intro m hnd
      obtain ⟨k, v⟩ := p
      have hk : k ∉ m.map Prod.fst := by
        intro hmem
        rw [List.map_append, List.nodup_append] at hnd
        exact hnd.2.2 hmem (by simp)
      have step : dictInsert m k v = m ++ [(k, v)] := dictInsert_of_not_mem_keys v hk
      have hnd2 : (((m ++ [(k, v)]) ++ l).map Prod.fst).Nodup := by
        simpa using hnd
      calc ((k, v) :: l).foldl (fun m p => dictInsert m p.1 p.2) m
          = l.foldl (fun m p => dictInsert m p.1 p.2) (m ++ [(k, v)]) := by
            rw [List.foldl_cons, step]
        _ = (m ++ [(k, v)]) ++ l := ih (m ++ [(k, v)]) hnd2
        _ = m ++ ((k, v) :: l) := by simp

theorem buildMapping_eq_of_nodup_keys {raw : List (String × YamlInfo)}
    (h : ((raw.filterMap validEntry).map Prod.fst).Nodup) :
    buildMapping raw = raw.filterMap validEntry := by
  simpa [buildMapping] using foldl_dictInsert_of_nodup (raw.filterMap validEntry) [] (by simpa using h)

/-! ## Helper lemmas: the insertion sort -/

theorem perm_insertSorted {α : Type} (le : α → α → Bool) (a : α) :
    ∀ l : List α, (insertSorted le a l).Perm (a :: l) := by
  intro l
  induction l with
  | nil => exact List.Perm.refl _
  | cons b l ih =>
      by_cases h : le a b
      · rw [insertSorted, if_pos h]
      · rw [insertSorted, if_neg h]
        exact (ih.cons b).trans (List.Perm.swap a b l)

theorem perm_sortBy {α : Type} (le : α → α → Bool) :
    ∀ l : List α, (sortBy le l).Perm l := by
  intro l
  induction l with
  | nil => exact List.Perm.refl _
  | cons a l ih =>
      exact (perm_insertSorted le a (sortBy le l)).trans (ih.cons a)

theorem mem_sortBy {α : Type} {le : α → α → Bool} {x : α} {l : List α} :
    x ∈ sortBy le l ↔ x ∈ l :=
  (perm_sortBy le l).mem_iff

theorem mem_insertSorted {α : Type} {le : α → α → Bool} {x a : α} {l : List α} :
    x ∈ insertSorted le a l ↔ x = a ∨ x ∈ l := by
  rw [(perm_insertSorted le a l).mem_iff, List.mem_cons]

theorem pairwise_insertSorted {α : Type} {le : α → α → Bool}
    (htot : ∀ a b, le a b || le b a) (htr : ∀ a b c, le a b → le b c → le a c) (a : α) :
    ∀ l : List α, l.Pairwise (fun x y => le x y = true) →
      (insertSorted le a l).Pairwise (fun x y => le x y = true) := by
  intro l
  induction l with
  | nil => intro _; simp [insertSorted]
  | cons b l ih =>
      intro hp
      rw [List.pairwise_cons] at hp
      by_cases h : le a b
      · rw [insertSorted, if_pos h]
        refine List.Pairwise.cons ?_ (List.pairwise_cons.mpr hp)
        intro y hy
        rcases List.mem_cons.mp hy with rfl | hy
        · exact h
        · exact htr a b y h (hp.1 y hy)
      · rw [insertSorted, if_neg h]
        have hba : le b a := by
          have := htot a b
          rcases Bool.or_eq_true_iff.mp this with h1 | h1
          · exact absurd h1 h
          · exact h1
        refine List.Pairwise.cons ?_ (ih hp.2)
        intro y hy
        rcases mem_insertSorted.mp hy with rfl | hy
        · exact hba
        · exact hp.1 y hy

theorem pairwise_sortBy {α : Type} {le : α → α → Bool}
    (htot : ∀ a b, le a b || le b a) (htr : ∀ a b c, le a b → le b c → le a c) :
    ∀ l : List α, (sortBy le l).Pairwise (fun x y => le x y = true) := by
  intro l
  induction l with
  | nil => simp [sortBy]
  | cons a l ih => exact pairwise_insertSorted htot htr a (sortBy le l) ih

/-! ## Helper lemmas: the per-entry pass -/

theorem validEntry_of_entryError_none {e : String × YamlInfo} (h : entryError e = none) :
    ∃ n : Int, e.2 = .dict (some (.intVal n)) ∧ ¬(n < 1 ∨ 18 < n) ∧
      validEntry e = some (pyStrip e.1, n) := by
  match he : e.2 with
  | .notDict ty => simp [entryError, he] at h
  | .dict none => simp [entryError, he] at h
  | .dict (some (.otherVal ty)) => simp [entryError, he] at h
  | .dict (some (.intVal n)) =>
      simp only [entryError, he] at h
      by_cases hr : n < 1 ∨ 18 < n
      · simp [if_pos hr] at h
      · exact ⟨n, rfl, hr, by simp [validEntry, he, if_neg hr]⟩

theorem entryError_none_of_validEntry {e : String × YamlInfo} {p : String × Int}
    (h : validEntry e = some p) : entryError e = none := by
  match he : e.2 with
  | .notDict ty => simp [validEntry, he] at h
  | .dict none => simp [validEntry, he] at h
  | .dict (some (.otherVal ty)) => simp [validEntry, he] at h
  | .dict (some (.intVal n)) =>
      simp only [validEntry, he] at h
      by_cases hr : n < 1 ∨ 18 < n
      · simp [if_pos hr] at h
      · simp [entryError, he, if_neg hr]

theorem clean_validEntries {raw : List (String × YamlInfo)}
    (h : raw.filterMap entryError = []) :
    (raw.filterMap validEntry).length = raw.length ∧
      (raw.filterMap validEntry).map Prod.fst = raw.map (fun e => pyStrip e.1) := by
  induction raw with
  | nil => simp
  | cons e raw ih =>
      rw [List.filterMap_cons] at h
      match hee : entryError e with
      | some d => rw [hee] at h; cases h
      | none =>
          rw [hee] at h
          obtain ⟨n, _, _, hv⟩ := validEntry_of_entryError_none hee
          obtain ⟨ih1, ih2⟩ := ih h
          constructor
          · rw [List.filterMap_cons, hv, List.length_cons, ih1, List.length_cons]
          · rw [List.filterMap_cons, hv, List.map_cons, List.map_cons, ih2]

/-! ## Helper lemmas: the branch structure of `load_user_mapping` -/

theorem load_eq_validationError {raw : List (String × YamlInfo)}
    (h : raw.filterMap entryError ≠ []) :
    load_user_mapping raw = .validationError (raw.filterMap entryError) := by
  have hne : raw ≠ [] := by
    rintro rfl; exact h rfl
  rw [load_user_mapping, if_neg hne, if_pos h]

theorem load_eq_duplicateError {raw : List (String × YamlInfo)}
    (hclean : raw.filterMap entryError = [])
    (hdup : dupReport (buildMapping raw) ≠ []) :
    load_user_mapping raw = .duplicateError (dupReport (buildMapping raw)) := by
  have hne : raw ≠ [] := by
    rintro rfl
    exact hdup rfl
  rw [load_user_mapping, if_neg hne, if_neg (by simp [hclean]), if_pos hdup]

theorem load_eq_ok {raw : List (String × YamlInfo)}
    (hne : raw ≠ [])
    (hclean : raw.filterMap entryError = [])
    (hdup : dupReport (buildMapping raw) = []) :
    load_user_mapping raw = .ok (buildMapping raw) (missingIds (buildMapping raw)) := by
  rw [load_user_mapping, if_neg hne, if_neg (by simp [hclean]), if_neg (by simp [hdup])]

/-! ## Helper lemmas: duplicates and coverage -/

theorem dupReport_eq_nil_of_nodup {m : List (String × Int)}
    (h : (userIds m).Nodup) : dupReport m = [] := by
  have : dupIds m = [] := by
    rw [dupIds, List.filter_eq_nil_iff]
    intro uid _
    have hc : (userIds m).count uid ≤ 1 := List.nodup_iff_count_le_one.mp h uid
    simp only [decide_eq_true_eq]
    omega
  rw [dupReport, this, List.map_nil]

theorem mem_dupReport_characterization {m : List (String × Int)} {uid : Int}
    {keys : List String} (h : (uid, keys) ∈ dupReport m) :
    2 ≤ (userIds m).count uid ∧ keys = (m.filter (fun p => p.2 == uid)).map Prod.fst := by
  rw [dupReport, List.mem_map] at h
  obtain ⟨u, hu, he⟩ := h
  injection he with h1 h2
  subst h1
  rw [dupIds, List.mem_filter] at hu
  refine ⟨by simpa using Nat.succ_le_of_lt (by simpa using hu.2), h2.symm⟩

theorem dupReport_covers {m : List (String × Int)} {uid : Int}
    (h : 2 ≤ (userIds m).count uid) :
    (uid, (m.filter (fun p => p.2 == uid)).map Prod.fst) ∈ dupReport m := by
  rw [dupReport, List.mem_map]
  refine ⟨uid, ?_, rfl⟩
  rw [dupIds, List.mem_filter]
  have hmem : uid ∈ userIds m := List.count_pos_iff.mp (by omega)
  exact ⟨mem_dedupFirst.mpr hmem, by simpa using h⟩

theorem mem_intRange1toN {N : Nat} {i : Int} :
    i ∈ intRange1toN N ↔ 1 ≤ i ∧ i ≤ (N : Int) := by
  rw [intRange1toN]
  constructor
  · intro h
    obtain ⟨j, hj, he⟩ := List.mem_map.mp h
    rw [List.mem_range] at hj
    have he2 : Int.ofNat j + 1 = i := he
    rw [Int.ofNat_eq_natCast] at he2
    omega
  · intro h
    refine List.mem_map.mpr ⟨(i - 1).toNat, ?_, ?_⟩
    · rw [List.mem_range]; omega
    · show Int.ofNat (i - 1).toNat + 1 = i
      rw [Int.ofNat_eq_natCast]
      omega

theorem mem_missingIds {m : List (String × Int)} {i : Int} :
    i ∈ missingIds m ↔ (1 ≤ i ∧ i ≤ 18) ∧ i ∉ userIds m := by
  rw [missingIds, List.mem_filter, mem_intRange1toN]
  simp

theorem missingIds_eq_nil_iff {m : List (String × Int)} :
    missingIds m = [] ↔ ∀ i : Int, 1 ≤ i → i ≤ 18 → i ∈ userIds m := by
  rw [missingIds, List.filter_eq_nil_iff]
  constructor
  · intro h i h1 h2
    have := h i (mem_intRange1toN.mpr ⟨h1, by exact_mod_cast h2⟩)
    simpa using this
  · intro h i hi
    rw [mem_intRange1toN] at hi
    simp only [Bool.not_eq_true, Bool.not_eq_true']
    simpa [List.contains_iff_exists_mem_beq] using
      (by simpa using h i hi.1 (by exact_mod_cast hi.2) : i ∈ userIds m)

/-! ## Claim C1 -/

/-- C1: for every raw mapping input whose per-entry pass finds at least one defect
(bag not a record, identifier absent or null, identifier not an integer, identifier
outside `[1, 18]`), `load_user_mapping` fails once with the `ValidationError` whose
diagnostic is exactly the list of all defective entries, each with its trimmed key
and its specific reason — every defective entry of the input contributes its defect
to that list, and the duplicate and coverage checks are never reached. -/
theorem validate_reports_every_defect (raw : List (String × YamlInfo))
    (h : raw.filterMap entryError ≠ []) :
    load_user_mapping raw = .validationError (raw.filterMap entryError) ∧
    ∀ e ∈ raw, ∀ d, entryError e = some d → d ∈ raw.filterMap entryError := by
  refine ⟨load_eq_validationError h, ?_⟩
  intro e he d hd
  exact List.mem_filterMap.mpr ⟨e, he, hd⟩

/-- Witness for C1: two entries with a missing identifier field and one entry
with identifier 25 yield exactly 3 distinct reported defects, none omitted. -/
theorem validate_reports_every_defect_witness :
    [("S001", YamlInfo.dict none), ("S002", YamlInfo.dict none),
        ("S003", YamlInfo.dict (some (.intVal 25)))].filterMap entryError ≠ [] ∧
    load_user_mapping [("S001", YamlInfo.dict none), ("S002", YamlInfo.dict none),
        ("S003", YamlInfo.dict (some (.intVal 25)))] =
      .validationError [("S001", .missingUserId), ("S002", .missingUserId),
        ("S003", .outOfRange 25)] ∧
    ([("S001", Reason.missingUserId), ("S002", Reason.missingUserId),
        ("S003", Reason.outOfRange 25)]).length = 3 ∧
    ([("S001", Reason.missingUserId), ("S002", Reason.missingUserId),
        ("S003", Reason.outOfRange 25)]).Nodup := by
  refine ⟨by decide, ?_, by decide, by decide⟩
  have h := validate_reports_every_defect
    [("S001", YamlInfo.dict none), ("S002", YamlInfo.dict none),
      ("S003", YamlInfo.dict (some (.intVal 25)))] (by decide)
  exact h.1.trans (by decide)

/-! ## Claim C2 -/

/-- C2: the duplicate check runs only when the per-entry pass is clean (a defective
input always fails with `ValidationError`, never with the duplicate error); when the
pass is clean and some numeric identifier is assigned to two or more keys,
`load_user_mapping` fails with the `DuplicateIdentifierError` whose payload names
each colliding numeric identifier together with exactly the keys sharing it. -/
theorem validate_duplicate_check (raw : List (String × YamlInfo))
    (hclean : raw.filterMap entryError = [])
    (hdup : dupReport (buildMapping raw) ≠ []) :
    load_user_mapping raw = .duplicateError (dupReport (buildMapping raw)) ∧
    (∀ uid keys, (uid, keys) ∈ dupReport (buildMapping raw) →
      2 ≤ (userIds (buildMapping raw)).count uid ∧
      keys = ((buildMapping raw).filter (fun p => p.2 == uid)).map Prod.fst) ∧
    (∀ uid : Int, 2 ≤ (userIds (buildMapping raw)).count uid →
      (uid, ((buildMapping raw).filter (fun p => p.2 == uid)).map Prod.fst) ∈
        dupReport (buildMapping raw)) ∧
    ∀ (raw2 : List (String × YamlInfo)) (d : List (Int × List String)),
      raw2.filterMap entryError ≠ [] → load_user_mapping raw2 ≠ .duplicateError d := by
  refine ⟨load_eq_duplicateError hclean hdup,
    fun uid keys h => mem_dupReport_characterization h,
    fun uid h => dupReport_covers h, ?_⟩
  intro raw2 d h2 hc
  rw [load_eq_validationError h2] at hc
  cases hc

/-- Witness for C2: two different keys both assigned identifier 7 make
`load_user_mapping` fail naming identifier 7 and both keys. -/
theorem validate_duplicate_check_witness :
    load_user_mapping [("A", YamlInfo.dict (some (.intVal 7))),
        ("B", YamlInfo.dict (some (.intVal 7)))] =
      .duplicateError [(7, ["A", "B"])] := by
  have h := validate_duplicate_check
    [("A", YamlInfo.dict (some (.intVal 7))), ("B", YamlInfo.dict (some (.intVal 7)))]
    (by decide) (by decide)
  exact h.1.trans (by decide)

/-! ## Claim C3 -/

/-- C3: if any (trimmed) table row's identifier is absent from the mapping,
`add_user_id_and_sort` fails with the `UnmappedRecordError` listing the identifier
and name of every such row — every unmapped row of the table appears in the
diagnostic — and no output is produced (the result is never the `.ok` payload that
gets written to the output file). -/
theorem join_reports_every_unmapped_row (table : List SurveyRow) (m : List (String × Int))
    (h : unmappedRows table m ≠ []) :
    add_user_id_and_sort table m = .error (unmappedRows table m) ∧
    (∀ r ∈ table, dictGet m (pyStrip r.studentId) = none →
      (pyStrip r.studentId, r.name) ∈ unmappedRows table m) ∧
    ∀ out, add_user_id_and_sort table m ≠ .ok out := by
  refine ⟨?_, ?_, ?_⟩
  · rw [add_user_id_and_sort, if_pos h]
  · intro r hr hnone
    rw [unmappedRows]
    refine List.mem_map.mpr ⟨trimRow r, ?_, rfl⟩
    refine List.mem_filter.mpr ⟨List.mem_map.mpr ⟨r, hr, rfl⟩, ?_⟩
    simp [trimRow, hnone]
  · intro out hc
    rw [add_user_id_and_sort, if_pos h] at hc
    cases hc

/-- Witness for C3: a table with one mapped and one unmapped row fails listing
the unmapped row's identifier and name, and produces no output. -/
theorem join_reports_every_unmapped_row_witness :
    add_user_id_and_sort [⟨"S001", "Alice", "a", "b", "c"⟩, ⟨"S999", "Bob", "d", "e", "f"⟩]
        [("S001", 1)] = .error [("S999", "Bob")] := by
  have h := join_reports_every_unmapped_row
    [⟨"S001", "Alice", "a", "b", "c"⟩, ⟨"S999", "Bob", "d", "e", "f"⟩] [("S001", 1)]
    (by decide)
  exact h.1.trans (by rfl)

/-! ## Claim C4 -/

/-- C4 counterexample: the raw input `{"S001": {user_id: 1}, " S001 ": {user_id: 2}}`
has a clean per-entry pass and unique numeric identifiers, and `load_user_mapping`
succeeds — but the returned mapping has 1 entry while the input has 2, because both
keys trim to `"S001"`: the claim's "same cardinality as the input" fails. -/
theorem validate_cardinality_counterexample :
    ([("S001", YamlInfo.dict (some (.intVal 1))),
        (" S001 ", YamlInfo.dict (some (.intVal 2)))].filterMap entryError) = [] ∧
    load_user_mapping [("S001", YamlInfo.dict (some (.intVal 1))),
        (" S001 ", YamlInfo.dict (some (.intVal 2)))] =
      .ok [("S001", 2)] [1, 3, 4, 5, 6, 7, 8, 9, 10, 11, 12, 13, 14, 15, 16, 17, 18] ∧
    ([("S001", YamlInfo.dict (some (.intVal 1))),
        (" S001 ", YamlInfo.dict (some (.intVal 2)))]).length = 2 ∧
    ([(("S001" : String), (2 : Int))]).length = 1 := by
  exact ⟨by decide, by decide, rfl, rfl⟩

/-- C4 (amended): for every nonempty raw input whose per-entry pass is clean, whose
trimmed keys are pairwise distinct, and whose numeric identifiers are unique,
`load_user_mapping` succeeds and returns the trimmed-key-to-identifier mapping with
the same cardinality as the input; missing identifiers of `{1..18}` surface only in
the warning component of the success result, and that warning is empty exactly when
the used identifiers cover all of `{1..18}`. -/
theorem validate_ok_characterization (raw : List (String × YamlInfo))
    (hne : raw ≠ [])
    (hclean : raw.filterMap entryError = [])
    (hkeys : (raw.map (fun e => pyStrip e.1)).Nodup)
    (huniq : ((raw.filterMap validEntry).map Prod.snd).Nodup) :
    load_user_mapping raw = .ok (buildMapping raw) (missingIds (buildMapping raw)) ∧
    (buildMapping raw).length = raw.length ∧
    (missingIds (buildMapping raw) = [] ↔
      ∀ i : Int, 1 ≤ i → i ≤ 18 → i ∈ userIds (buildMapping raw)) := by
  obtain ⟨hlen, hkeysEq⟩ := clean_validEntries hclean
  have hnodupkeys : ((raw.filterMap validEntry).map Prod.fst).Nodup := by
    rw [hkeysEq]; exact hkeys
  have hbm : buildMapping raw = raw.filterMap validEntry :=
    buildMapping_eq_of_nodup_keys hnodupkeys
  have hvals : (userIds (buildMapping raw)).Nodup := by
    rw [hbm]; exact huniq
  have hdup : dupReport (buildMapping raw) = [] := dupReport_eq_nil_of_nodup hvals
  refine ⟨load_eq_ok hne hclean hdup, ?_, missingIds_eq_nil_iff⟩
  rw [hbm, hlen]

/-- Witness for the amended C4: a clean two-entry input with distinct trimmed keys
and unique identifiers 1 and 2 validates to a two-entry mapping whose coverage
warning lists 3..18. -/
theorem validate_ok_characterization_witness :
    load_user_mapping [("A", YamlInfo.dict (some (.intVal 1))),
        ("B", YamlInfo.dict (some (.intVal 2)))] =
      .ok [("A", 1), ("B", 2)] [3, 4, 5, 6, 7, 8, 9, 10, 11, 12, 13, 14, 15, 16, 17, 18] ∧
    ([(("A" : String), (1 : Int)), ("B", 2)]).length = 2 := by
  have h := validate_ok_characterization
    [("A", YamlInfo.dict (some (.intVal 1))), ("B", YamlInfo.dict (some (.intVal 2)))]
    (by decide) (by decide) (by decide) (by decide)
  exact ⟨h.1.trans (by decide), rfl⟩

/-! ## Claim C10 -/

/-- C10: two individually valid raw entries whose keys become equal after trimming
produce no defect and no failure: `load_user_mapping` succeeds, the later entry's
numeric identifier silently overwrites the earlier one's at the shared trimmed key,
the returned mapping is strictly smaller than the input, and the dropped earlier
identifier reappears only in the coverage-gap warning. -/
theorem validate_trim_collision_overwrites (k1 k2 : String) (u1 u2 : Int)
    (hk : pyStrip k1 = pyStrip k2)
    (h1 : 1 ≤ u1 ∧ u1 ≤ 18) (h2 : 1 ≤ u2 ∧ u2 ≤ 18) (hu : u1 ≠ u2) :
    load_user_mapping [(k1, .dict (some (.intVal u1))), (k2, .dict (some (.intVal u2)))] =
      .ok [(pyStrip k1, u2)] (missingIds [(pyStrip k1, u2)]) ∧
    ([(pyStrip k1, u2)]).length <
      ([(k1, YamlInfo.dict (some (.intVal u1))), (k2, .dict (some (.intVal u2)))]).length ∧
    u1 ∉ userIds [(pyStrip k1, u2)] ∧
    u1 ∈ missingIds [(pyStrip k1, u2)] := by
  have hr1 : ¬(u1 < 1 ∨ 18 < u1) := by omega
  have hr2 : ¬(u2 < 1 ∨ 18 < u2) := by omega
  have hclean : ([(k1, YamlInfo.dict (some (.intVal u1))),
      (k2, YamlInfo.dict (some (.intVal u2)))].filterMap entryError) = [] := by
    simp [List.filterMap_cons, entryError, hr1, hr2]
  have hbm : buildMapping [(k1, YamlInfo.dict (some (.intVal u1))),
      (k2, YamlInfo.dict (some (.intVal u2)))] = [(pyStrip k1, u2)] := by
    simp [buildMapping, List.filterMap_cons, validEntry, hr1, hr2, dictInsert, ← hk]
  have hnm : u1 ∉ userIds [(pyStrip k1, u2)] := by
    simp [userIds, hu]
  have hdup : dupReport (buildMapping [(k1, YamlInfo.dict (some (.intVal u1))),
      (k2, YamlInfo.dict (some (.intVal u2)))]) = [] := by
    rw [hbm]
    exact dupReport_eq_nil_of_nodup (by simp [userIds])
  refine ⟨?_, by simp, hnm, mem_missingIds.mpr ⟨⟨h1.1, h1.2⟩, hnm⟩⟩
  have h := load_eq_ok (show [(k1, YamlInfo.dict (some (.intVal u1))),
    (k2, YamlInfo.dict (some (.intVal u2)))] ≠ [] by simp) hclean hdup
  rw [hbm] at h
  exact h

/-- Witness for C10 at keys `"S001"` and `" S001 "` with identifiers 1 and 2:
validation succeeds with the single-entry mapping `"S001" ↦ 2` and identifier 1
surfaces in the coverage warning. -/
theorem validate_trim_collision_overwrites_witness :
    load_user_mapping [("S001", YamlInfo.dict (some (.intVal 1))),
        (" S001 ", YamlInfo.dict (some (.intVal 2)))] =
      .ok [("S001", 2)] (missingIds [("S001", 2)]) ∧
    (1 : Int) ∈ missingIds [("S001", 2)] := by
  have h := validate_trim_collision_overwrites "S001" " S001 " 1 2
    (by decide) (by decide) (by decide) (by decide)
  exact ⟨h.1, h.2.2.2⟩

/-! ## Helper lemmas: idempotence of stripping -/

theorem dropWhile_head?_not {α : Type} {p : α → Bool} :
    ∀ (l : List α) (a : α), (l.dropWhile p).head? = some a → p a = false := by
  intro l
  induction l with
  | nil => intro a h; cases h
  | cons b l ih =>
      intro a h
      by_cases hb : p b
      · rw [List.dropWhile_cons_of_pos hb] at h
        exact ih a h
      · rw [List.dropWhile_cons_of_neg hb] at h
        injection h with h1
        subst h1
        exact Bool.of_not_eq_true hb

theorem dropWhile_of_head?_not {α : Type} {p : α → Bool} {l : List α}
    (h : ∀ a, l.head? = some a → p a = false) : l.dropWhile p = l := by
  cases l with
  | nil => rfl
  | cons a l =>
      have := h a rfl
      rw [List.dropWhile_cons_of_neg (by simp [this])]

theorem getLast?_dropWhile {α : Type} {p : α → Bool} :
    ∀ l : List α, l.dropWhile p = [] ∨ (l.dropWhile p).getLast? = l.getLast? := by
  intro l
  induction l with
  | nil => exact Or.inl rfl
  | cons a l ih =>
      by_cases ha : p a
      · rw [List.dropWhile_cons_of_pos ha]
        rcases ih with h | h
        · exact Or.inl h
        · cases l with
          | nil => exact Or.inl rfl
          | cons b l => exact Or.inr (by rw [List.getLast?_cons_cons]; exact h)
      · rw [List.dropWhile_cons_of_neg ha]
        exact Or.inr rfl

theorem pyStrip_data (s : String) :
    (pyStrip s).data =
      ((s.data.dropWhile isPySpace).reverse.dropWhile isPySpace).reverse := rfl

theorem pyStrip_idem (s : String) : pyStrip (pyStrip s) = pyStrip s := by
  obtain ⟨l⟩ := s
  show pyStrip (pyStrip ⟨l⟩) = pyStrip ⟨l⟩
  have hB1 : ∀ a, ((l.dropWhile isPySpace).reverse.dropWhile isPySpace).head? = some a →
      isPySpace a = false :=
    fun a h => dropWhile_head?_not _ a h
  have hfront : (((l.dropWhile isPySpace).reverse.dropWhile isPySpace).reverse).dropWhile
      isPySpace = ((l.dropWhile isPySpace).reverse.dropWhile isPySpace).reverse := by
    apply dropWhile_of_head?_not
    intro a h
    rw [List.head?_reverse] at h
    rcases @getLast?_dropWhile Char isPySpace (l.dropWhile isPySpace).reverse with he | he
    · rw [he] at h; cases h
    · rw [he, List.getLast?_reverse] at h
      exact dropWhile_head?_not l a h
  have hmid : List.dropWhile isPySpace ((l.dropWhile isPySpace).reverse.dropWhile isPySpace) =
      (l.dropWhile isPySpace).reverse.dropWhile isPySpace :=
    dropWhile_of_head?_not (fun a h => hB1 a h)
  show String.mk ((((((l.dropWhile isPySpace).reverse.dropWhile
      isPySpace).reverse).dropWhile isPySpace).reverse.dropWhile isPySpace).reverse) =
    String.mk (((l.dropWhile isPySpace).reverse.dropWhile isPySpace).reverse)
  rw [hfront, List.reverse_reverse, hmid]

/-! ## Helper lemmas: keys of the built mapping are trimmed -/

theorem mem_keys_dictInsert {β : Type} {m : List (String × β)} {k x : String} {v : β}
    (h : x ∈ (dictInsert m k v).map Prod.fst) : x ∈ m.map Prod.fst ∨ x = k := by
  induction m with
  | nil => exact Or.inr (by simpa [dictInsert] using h)
  | cons q m ih =>
      obtain ⟨k0, v0⟩ := q
      by_cases hk : k = k0
      · subst hk
        have hins : dictInsert ((k, v0) :: m) k v = (k, v) :: m := by
          show (if k = k then (k, v) :: m else (k, v0) :: dictInsert m k v) = (k, v) :: m
          rw [if_pos rfl]
        rw [hins, List.map_cons] at h
        rcases List.mem_cons.mp h with h1 | h1
        · exact Or.inr h1
        · exact Or.inl (by rw [List.map_cons]; exact List.mem_cons_of_mem _ h1)
      · have hins : dictInsert ((k0, v0) :: m) k v = (k0, v0) :: dictInsert m k v := by
          show (if k = k0 then (k0, v) :: m else (k0, v0) :: dictInsert m k v) = _
          rw [if_neg hk]
        rw [hins, List.map_cons] at h
        rcases List.mem_cons.mp h with h1 | h1
        · exact Or.inl (by rw [List.map_cons]; exact h1 ▸ List.mem_cons_self _ _)
        · rcases ih h1 with h2 | h2
          · exact Or.inl (by rw [List.map_cons]; exact List.mem_cons_of_mem _ h2)
          · exact Or.inr h2

theorem mem_keys_foldl_dictInsert {β : Type} :
    ∀ (l m : List (String × β)) (x : String),
      x ∈ (l.foldl (fun m p => dictInsert m p.1 p.2) m).map Prod.fst →
      x ∈ m.map Prod.fst ∨ x ∈ l.map Prod.fst := by
  intro l
  induction l with
  | nil => intro m x h; exact Or.inl h
  | cons p l ih =>
      intro m x h
      rw [List.foldl_cons] at h
      rcases ih (dictInsert m p.1 p.2) x h with h1 | h1
      · rcases mem_keys_dictInsert h1 with h2 | h2
        · exact Or.inl h2
        · exact Or.inr (by simp [h2])
      · exact Or.inr (by simp; right; simpa using h1)

theorem validEntry_fst {e : String × YamlInfo} {p : String × Int}
    (h : validEntry e = some p) : p.1 = pyStrip e.1 := by
  match he : e.2 with
  | .notDict ty => simp [validEntry, he] at h
  | .dict none => simp [validEntry, he] at h
  | .dict (some (.otherVal ty)) => simp [validEntry, he] at h
  | .dict (some (.intVal n)) =>
      simp only [validEntry, he] at h
      by_cases hr : n < 1 ∨ 18 < n
      · simp [hr] at h
      · rw [if_neg hr] at h
        injection h with h1
        rw [← h1]

theorem buildMapping_keys_trimmed {raw : List (String × YamlInfo)} {p : String × Int}
    (h : p ∈ buildMapping raw) : p.1 = pyStrip p.1 := by
  have hx : p.1 ∈ (buildMapping raw).map Prod.fst := List.mem_map.mpr ⟨p, h, rfl⟩
  rcases mem_keys_foldl_dictInsert (raw.filterMap validEntry) [] p.1 hx with h1 | h1
  · cases h1
  · obtain ⟨q, hq, he⟩ := List.mem_map.mp h1
    obtain ⟨e, _, hv⟩ := List.mem_filterMap.mp hq
    rw [← he, validEntry_fst hv, pyStrip_idem]

/-! ## Claim C7 -/

/-- C7: trimming is symmetric.  Every key of a mapping returned by
`load_user_mapping` is already trimmed (a fixed point of `pyStrip`); the joiner
trims each row's identifier before the lookup, so whenever every row's trimmed
identifier is a mapping key the join succeeds; in particular a row with identifier
`" S001 "` joins against the mapping key `"S001"`. -/
theorem join_trims_symmetrically :
    (∀ (raw : List (String × YamlInfo)) (m : List (String × Int)) (w : List Int),
      load_user_mapping raw = .ok m w → ∀ p ∈ m, p.1 = pyStrip p.1) ∧
    (∀ (table : List SurveyRow) (m : List (String × Int)),
      (∀ r ∈ table, dictGet m (pyStrip r.studentId) ≠ none) →
      ∃ out, add_user_id_and_sort table m = .ok out) ∧
    add_user_id_and_sort [⟨" S001 ", "Alice", "a", "b", "c"⟩] [("S001", 3)] =
      .ok [⟨3, "S001", "Alice", "a", "b", "c"⟩] := by
  refine ⟨?_, ?_, by rfl⟩
  · intro raw m w hok p hp
    by_cases h1 : raw = []
    · rw [load_user_mapping, if_pos h1] at hok; cases hok
    · by_cases h2 : raw.filterMap entryError ≠ []
      · rw [load_eq_validationError h2] at hok; cases hok
      · push_neg at h2
        by_cases h3 : dupReport (buildMapping raw) ≠ []
        · rw [load_eq_duplicateError h2 h3] at hok; cases hok
        · push_neg at h3
          rw [load_eq_ok h1 h2 h3] at hok
          injection hok with hm hw
          exact buildMapping_keys_trimmed (by rw [hm]; exact hp)
  · intro table m h
    have hnil : unmappedRows table m = [] := by
      rw [unmappedRows, List.map_eq_nil_iff, List.filter_eq_nil_iff]
      intro t ht
      obtain ⟨r, hr, rfl⟩ := List.mem_map.mp ht
      have hne := h r hr
      simp [trimRow, Option.isNone_iff_eq_none, hne]
    exact ⟨_, by rw [add_user_id_and_sort, if_neg (by simp [hnil])]⟩

/-- Witness for C7: the concrete symmetric-trimming join of the claim, obtained by
instantiating the theorem. -/
theorem join_trims_symmetrically_witness :
    add_user_id_and_sort [⟨" S001 ", "Alice", "a", "b", "c"⟩] [("S001", 3)] =
      .ok [⟨3, "S001", "Alice", "a", "b", "c"⟩] :=
  join_trims_symmetrically.2.2

/-! ## Claim C8 -/

/-- C8: a lookup matching zero rows reports not-found carrying exactly the set of
numeric identifiers present in the joined table, in strictly ascending order. -/
theorem lookup_notFound_lists_present_ids (table : List JoinedRow) (q : Int)
    (h : ∀ r ∈ table, r.userId ≠ q) :
    get_user_responses table q =
      .notFound (sortedUniqueIds (table.map (fun r => r.userId))) ∧
    (∀ x : Int, x ∈ sortedUniqueIds (table.map (fun r => r.userId)) ↔
      ∃ r ∈ table, r.userId = x) ∧
    (sortedUniqueIds (table.map (fun r => r.userId))).Pairwise (fun a b : Int => a < b) := by
  have hfil : table.filter (fun r => r.userId == q) = [] := by
    rw [List.filter_eq_nil_iff]
    intro r hr
    simpa using h r hr
  refine ⟨by simp only [get_user_responses, hfil], ?_, ?_⟩
  · intro x
    rw [sortedUniqueIds, mem_sortBy, mem_dedupFirst, List.mem_map]
  · have htot : ∀ a b : Int, (decide (a ≤ b) || decide (b ≤ a)) = true := by
      intro a b; rcases Int.le_total a b with h1 | h1 <;> simp [h1]
    have htr : ∀ a b c : Int,
        decide (a ≤ b) = true → decide (b ≤ c) = true → decide (a ≤ c) = true := by
      intro a b c h1 h2
      simp only [decide_eq_true_eq] at h1 h2 ⊢
      omega
    have hpw := pairwise_sortBy htot htr (dedupFirst (table.map (fun r => r.userId)))
    have hnd : (sortedUniqueIds (table.map (fun r => r.userId))).Nodup :=
      ((perm_sortBy _ _).nodup_iff).mpr (nodup_dedupFirst _)
    exact (hpw.and hnd).imp (fun hx => lt_of_le_of_ne (by simpa using hx.1) hx.2)

/-- Witness for C8: querying identifier 2 against a table containing identifiers
3 and 1 reports not-found with the ascending list `[1, 3]`. -/
theorem lookup_notFound_lists_present_ids_witness :
    get_user_responses [⟨3, "S3", "C", "x", "y", "z"⟩, ⟨1, "S1", "A", "a", "b", "c"⟩] 2 =
      .notFound [1, 3] := by
  have h := lookup_notFound_lists_present_ids
    [⟨3, "S3", "C", "x", "y", "z"⟩, ⟨1, "S1", "A", "a", "b", "c"⟩] 2 (by decide)
  exact h.1.trans (by decide)

/-! ## Claim C5 -/

/-- C5 counterexample: identifier 2 is present in the mapping `{"S001" ↦ 1,
"S002" ↦ 2}` but no table row carries key `"S002"`; the join succeeds, yet the
lookup of 2 on the joined output reports not-found (listing the present identifier
1) instead of returning any row's answer fields — so the round trip as claimed,
quantified over every identifier present in the mapping, fails. -/
theorem join_lookup_roundtrip_counterexample :
    (("S002", (2 : Int)) ∈ [(("S001" : String), (1 : Int)), ("S002", 2)]) ∧
    add_user_id_and_sort [⟨"S001", "Alice", "a", "b", "c"⟩] [("S001", 1), ("S002", 2)] =
      .ok [⟨1, "S001", "Alice", "a", "b", "c"⟩] ∧
    get_user_responses [⟨1, "S001", "Alice", "a", "b", "c"⟩] 2 = .notFound [1] := by
  exact ⟨by decide, rfl, by decide⟩

theorem dict_vals_inj {m : List (String × Int)} (hvals : (m.map Prod.snd).Nodup)
    {k1 k2 : String} {v : Int} (h1 : (k1, v) ∈ m) (h2 : (k2, v) ∈ m) : k1 = k2 := by
  exact congrArg Prod.fst (List.inj_on_of_nodup_map hvals h1 h2 rfl)

theorem filter_filterMap_eq_singleton {α β : Type} (f : α → Option β) (p : β → Bool)
    (T : List α) (t0 : α) (j0 : β)
    (hT : T.Nodup) (ht0 : t0 ∈ T) (hj0 : f t0 = some j0) (hp0 : p j0 = true)
    (huniq : ∀ t ∈ T, ∀ j, f t = some j → p j = true → t = t0) :
    (T.filterMap f).filter p = [j0] := by
  induction T with
  | nil => cases ht0
  | cons a T ih =>
      rw [List.nodup_cons] at hT
      rcases List.mem_cons.mp ht0 with rfl | hmem
      · rw [List.filterMap_cons, hj0, List.filter_cons_of_pos hp0]
        have hrest : (T.filterMap f).filter p = [] := by
          rw [List.filter_eq_nil_iff]
          intro j hj hpj
          obtain ⟨t, ht, hf⟩ := List.mem_filterMap.mp hj
          have heq := huniq t (List.mem_cons_of_mem _ ht) j hf hpj
          exact hT.1 (heq ▸ ht)
        rw [hrest]
      · have hstep : ∀ j, f a = some j → p j = false := by
          intro j hf
          by_contra hpj
          rw [Bool.not_eq_false] at hpj
          have heq := huniq a (List.mem_cons_self _ _) j hf hpj
          exact hT.1 (show a ∈ T by rw [heq]; exact hmem)
        have ih2 := ih hT.2 hmem
          (fun t ht j hf hp => huniq t (List.mem_cons_of_mem _ ht) j hf hp)
        rw [List.filterMap_cons]
        cases hfa : f a with
        | none => exact ih2
        | some j =>
            rw [List.filter_cons_of_neg (by simp [hstep j hfa])]
            exact ih2

/-- C5 (amended): for every table and validated mapping on which the join succeeds
(with the mapping's keys and numeric identifiers each free of duplicates and the
table's trimmed identifiers distinct), and every mapping entry `(sid, uid)` that is
matched by a table row, looking `uid` up on the joined output returns exactly that
original row's fields — in particular its three free-text answers unchanged, field
for field. -/
theorem join_lookup_roundtrip (table : List SurveyRow) (m : List (String × Int))
    (out : List JoinedRow) (sid : String) (uid : Int) (r : SurveyRow)
    (hok : add_user_id_and_sort table m = .ok out)
    (hkeys : (m.map Prod.fst).Nodup)
    (hvals : (m.map Prod.snd).Nodup)
    (hsids : (table.map (fun t => pyStrip t.studentId)).Nodup)
    (hmem : (sid, uid) ∈ m)
    (hr : r ∈ table) (hrs : pyStrip r.studentId = sid) :
    get_user_responses out uid =
      .found uid (pyStrip r.studentId) r.name r.e1 r.e2 r.e3 := by
  subst hrs
  have hout : sortBy rowLe ((table.map trimRow).filterMap (joinRow m)) = out := by
    by_cases hun : unmappedRows table m ≠ []
    · rw [add_user_id_and_sort, if_pos hun] at hok; cases hok
    · rw [add_user_id_and_sort, if_neg hun] at hok
      exact Except.ok.inj hok
  subst hout
  have hget : dictGet m (pyStrip r.studentId) = some uid := dictGet_eq_some_of_mem hkeys hmem
  have hTnd : (table.map trimRow).Nodup := by
    refine List.Nodup.of_map SurveyRow.studentId ?_
    rw [List.map_map]
    exact hsids
  have hj0 : joinRow m (trimRow r) =
      some ⟨uid, pyStrip r.studentId, r.name, r.e1, r.e2, r.e3⟩ := by
    show Option.map (fun u => JoinedRow.mk u (pyStrip r.studentId) r.name r.e1 r.e2 r.e3)
        (dictGet m (pyStrip r.studentId)) =
      some (JoinedRow.mk uid (pyStrip r.studentId) r.name r.e1 r.e2 r.e3)
    rw [hget]
    rfl
  have hfjoined : ((table.map trimRow).filterMap (joinRow m)).filter
      (fun j => j.userId == uid) =
      [⟨uid, pyStrip r.studentId, r.name, r.e1, r.e2, r.e3⟩] := by
    refine filter_filterMap_eq_singleton (joinRow m) (fun j => j.userId == uid)
      (table.map trimRow) (trimRow r) _ hTnd (List.mem_map.mpr ⟨r, hr, rfl⟩) hj0
      (by simp) ?_
    intro t ht j hjoin hpj
    obtain ⟨r2, hr2, rfl⟩ := List.mem_map.mp ht
    rw [joinRow, Option.map_eq_some'] at hjoin
    obtain ⟨u, hd, rfl⟩ := hjoin
    have hu : u = uid := by simpa using hpj
    subst hu
    have hmem2 : (pyStrip r2.studentId, u) ∈ m := mem_of_dictGet_eq_some hd
    have hkeq : pyStrip r2.studentId = pyStrip r.studentId := dict_vals_inj hvals hmem2 hmem
    have hreq : r2 = r := List.inj_on_of_nodup_map hsids hr2 hr hkeq
    rw [hreq]
  have hperm : (sortBy rowLe ((table.map trimRow).filterMap (joinRow m))).filter
      (fun j => j.userId == uid) =
      [⟨uid, pyStrip r.studentId, r.name, r.e1, r.e2, r.e3⟩] := by
    have hp := List.Perm.filter (fun j => j.userId == uid)
      (perm_sortBy rowLe ((table.map trimRow).filterMap (joinRow m)))
    rw [hfjoined] at hp
    exact List.perm_singleton.mp hp
  simp only [get_user_responses, hperm]

/-- Witness for the amended C5: a two-row table joined against a two-entry
mapping; looking up identifier 2 returns the matching original row's name and
answer fields unchanged. -/
theorem join_lookup_roundtrip_witness :
    get_user_responses [⟨1, "S002", "Bob", "x", "y", "z"⟩,
        ⟨2, "S001", "Alice", "a", "b", "c"⟩] 2 =
      .found 2 "S001" "Alice" "a" "b" "c" := by
  have h := join_lookup_roundtrip
    [⟨" S002 ", "Bob", "x", "y", "z"⟩, ⟨"S001", "Alice", "a", "b", "c"⟩]
    [("S001", 2), ("S002", 1)]
    [⟨1, "S002", "Bob", "x", "y", "z"⟩, ⟨2, "S001", "Alice", "a", "b", "c"⟩]
    "S001" 2 ⟨"S001", "Alice", "a", "b", "c"⟩
    (by rfl) (by decide) (by decide) (by decide) (by decide) (by decide) (by decide)
  exact h

/-! ## Claim C9 -/

/-- C9 counterexample: with rows `("S001","A")`, `("S001","B")`, `("S002","C")`,
`generate_template` de-duplicates by the full `(identifier, name)` pair — not by
identifier alone — so both `"S001"` pairs survive the de-duplication, the later one
overwrites the earlier in the emitted dict, and the emitted numeric identifiers are
`[2, 3]`: not the sequential assignment starting at 1 that the claim states. -/
theorem generate_template_counterexample :
    generate_template [⟨"S001", "A", "", "", ""⟩, ⟨"S001", "B", "", "", ""⟩,
        ⟨"S002", "C", "", "", ""⟩] = [("S001", (2, "B")), ("S002", (3, "C"))] ∧
    ([("S001", ((2 : Int), "B")), ("S002", (3, "C"))].map (fun e => e.2.1)) = [2, 3] ∧
    ([(2 : Int), 3]) ≠ [1, 2] := by
  exact ⟨by decide, rfl, by decide⟩

theorem numberFrom_map_fst :
    ∀ (k : Int) (l : List (String × String)),
      (numberFrom k l).map Prod.fst = l.map Prod.fst := by
  intro k l
  induction l generalizing k with
  | nil => rfl
  | cons p l ih =>
      obtain ⟨sid, name⟩ := p
      rw [numberFrom, List.map_cons, List.map_cons, ih]

theorem numberFrom_length (k : Int) (l : List (String × String)) :
    (numberFrom k l).length = l.length := by
  have h := congrArg List.length (numberFrom_map_fst k l)
  simpa using h

theorem numberFrom_map_ids :
    ∀ (l : List (String × String)) (k : Int),
      (numberFrom k l).map (fun e => e.2.1) =
        (List.range l.length).map (fun i => Int.ofNat i + k) := by
  intro l
  induction l with
  | nil => intro k; rfl
  | cons p l ih =>
      intro k
      obtain ⟨sid, name⟩ := p
      rw [numberFrom, List.map_cons, ih (k + 1), List.length_cons,
        List.range_succ_eq_map, List.map_cons, List.map_map]
      refine congrArg₂ List.cons (by simp) (List.map_congr_left ?_)
      intro i _
      show Int.ofNat i + (k + 1) = Int.ofNat (Nat.succ i) + k
      simp only [Int.ofNat_eq_natCast]
      omega

theorem nodup_keys_dictInsert {β : Type} {m : List (String × β)} (k : String) (v : β)
    (h : (m.map Prod.fst).Nodup) : ((dictInsert m k v).map Prod.fst).Nodup := by
  induction m with
  | nil => simp [dictInsert]
  | cons q m ih =>
      obtain ⟨k0, v0⟩ := q
      rw [List.map_cons, List.nodup_cons] at h
      by_cases hk : k = k0
      · subst hk
        have hins : dictInsert ((k, v0) :: m) k v = (k, v) :: m := by
          show (if k = k then (k, v) :: m else (k, v0) :: dictInsert m k v) = (k, v) :: m
          rw [if_pos rfl]
        rw [hins, List.map_cons, List.nodup_cons]
        exact ⟨h.1, h.2⟩
      · have hins : dictInsert ((k0, v0) :: m) k v = (k0, v0) :: dictInsert m k v := by
          show (if k = k0 then (k0, v) :: m else (k0, v0) :: dictInsert m k v) = _
          rw [if_neg hk]
        rw [hins, List.map_cons, List.nodup_cons]
        refine ⟨?_, ih h.2⟩
        intro hmem
        rcases mem_keys_dictInsert hmem with h1 | h1
        · exact h.1 h1
        · exact hk h1.symm

theorem nodup_keys_foldl_dictInsert {β : Type} :
    ∀ (l m : List (String × β)), (m.map Prod.fst).Nodup →
      ((l.foldl (fun m p => dictInsert m p.1 p.2) m).map Prod.fst).Nodup := by
  intro l
  induction l with
  | nil => intro m h; exact h
  | cons p l ih =>
      intro m h
      rw [List.foldl_cons]
      exact ih (dictInsert m p.1 p.2) (nodup_keys_dictInsert p.1 p.2 h)

theorem charListLe_total : ∀ la lb : List Char, (charListLe la lb || charListLe lb la) = true := by
  intro la
  induction la with
  | nil => intro lb; rw [charListLe]; simp
  | cons a as ih =>
      intro lb
      cases lb with
      | nil => rw [charListLe]; simp [charListLe]
      | cons b bs =>
          rcases lt_trichotomy a b with h | h | h
          · rw [charListLe, if_pos h]; simp
          · subst h
            rw [charListLe, if_neg (lt_irrefl a), if_pos rfl,
              charListLe, if_neg (lt_irrefl a), if_pos rfl]
            exact ih bs
          · rw [show charListLe (b :: bs) (a :: as) = true from by
              rw [charListLe, if_pos h]]
            simp

theorem charListLe_trans :
    ∀ la lb lc : List Char,
      charListLe la lb = true → charListLe lb lc = true → charListLe la lc = true := by
  intro la
  induction la with
  | nil => intro lb lc _ _; rw [charListLe]
  | cons a as ih =>
      intro lb lc h1 h2
      cases lb with
      | nil => rw [charListLe] at h1; cases h1
      | cons b bs =>
          cases lc with
          | nil => rw [charListLe] at h2; cases h2
          | cons c cs =>
              rw [charListLe] at h1 h2
              by_cases hab : a < b
              · rw [if_pos hab] at h1
                by_cases hbc : b < c
                · rw [charListLe, if_pos (lt_trans hab hbc)]
                · rw [if_neg hbc] at h2
                  by_cases hbc2 : b = c
                  · subst hbc2; rw [charListLe, if_pos hab]
                  · rw [if_neg hbc2] at h2; cases h2
              · rw [if_neg hab] at h1
                by_cases hab2 : a = b
                · subst hab2
                  rw [if_pos rfl] at h1
                  by_cases hbc : a < c
                  · rw [charListLe, if_pos hbc]
                  · rw [if_neg hbc] at h2
                    by_cases hbc2 : a = c
                    · subst hbc2
                      rw [if_pos rfl] at h2
                      rw [charListLe, if_neg (lt_irrefl a), if_pos rfl]
                      exact ih bs cs h1 h2
                    · rw [if_neg hbc2] at h2; cases h2
                · rw [if_neg hab2] at h1; cases h1

/-- C9 (amended): `generate_template` de-duplicates the extracted
`(identifier, name)` pairs by the full pair; every distinct trimmed identifier
appears exactly once in the emitted template (a repeated identifier is overwritten,
keeping one entry), and when no identifier occurs under two different names the
template is exactly the pair list sorted ascending by the trimmed identifier
(lexicographically) with sequential numeric identifiers assigned from 1 in that
order, each entry carrying the name as reference metadata. -/
theorem generate_template_characterization (table : List SurveyRow)
    (hnd : ((templatePairs table).map Prod.fst).Nodup) :
    generate_template table =
      numberFrom 1 (sortBy (fun p q => strLe p.1 q.1) (templatePairs table)) ∧
    ((generate_template table).map (fun e => e.2.1)) =
      (List.range (generate_template table).length).map (fun i => Int.ofNat i + 1) ∧
    ((generate_template table).map Prod.fst).Pairwise (fun a b => strLe a b = true) ∧
    ∀ t2 : List SurveyRow, ((generate_template t2).map Prod.fst).Nodup := by
  have hperm : (sortBy (fun p q : String × String => strLe p.1 q.1)
      (templatePairs table)).Perm (templatePairs table) := perm_sortBy _ _
  have hndsort : ((sortBy (fun p q : String × String => strLe p.1 q.1)
      (templatePairs table)).map Prod.fst).Nodup :=
    ((hperm.map Prod.fst).nodup_iff).mpr hnd
  have hkeysnum : ((numberFrom 1 (sortBy (fun p q : String × String => strLe p.1 q.1)
      (templatePairs table))).map Prod.fst).Nodup := by
    rw [numberFrom_map_fst]
    exact hndsort
  have hmain : generate_template table =
      numberFrom 1 (sortBy (fun p q : String × String => strLe p.1 q.1)
        (templatePairs table)) := by
    rw [generate_template]
    exact foldl_dictInsert_of_nodup _ [] (by simpa using hkeysnum)
  refine ⟨hmain, ?_, ?_, ?_⟩
  · rw [hmain, numberFrom_map_ids, numberFrom_length]
  · rw [hmain, numberFrom_map_fst, List.pairwise_map]
    exact pairwise_sortBy (fun p q => charListLe_total p.1.data q.1.data)
      (fun p q s hpq hqs => charListLe_trans p.1.data q.1.data s.1.data hpq hqs) _
  · intro t2
    rw [generate_template]
    exact nodup_keys_foldl_dictInsert _ [] (by simp)

/-- Witness for the amended C9: two rows with distinct identifiers, given out of
order, produce the template sorted by identifier with sequential identifiers 1, 2
and names carried alongside. -/
theorem generate_template_characterization_witness :
    generate_template [⟨"S002", "B", "", "", ""⟩, ⟨"S001", "A", "", "", ""⟩] =
      [("S001", (1, "A")), ("S002", (2, "B"))] := by
  have h := generate_template_characterization
    [⟨"S002", "B", "", "", ""⟩, ⟨"S001", "A", "", "", ""⟩] (by decide)
  exact h.1.trans (by decide)
